import Mathlib

/-!
Shallow embedding of the multipart-upload orchestrator `handle_multipart`
from `src/main.rs` of the s3cli repository.

Rust strings are modelled as `List Char` (called `RStr`): `read_line`
appends the bytes it read (including the trailing newline, when one was
present) to the buffer, `String::pop` drops the last character, and string
equality is list equality.  The external world (the S3 client and the local
filesystem) is an explicit environment `Env`; every outward call the code
makes is recorded in an ordered trace of `Call`s, and every `.unwrap()` on
a failed or absent value is modelled as the terminal outcome `panicked`.
-/

/-- Rust `String`, modelled as its character sequence. -/
abbrev RStr := List Char

/-- The literal sentinel string `"END"` compared against the buffer. -/
def strEND : RStr := ['E', 'N', 'D']

/-- The fields of `CreateMultipartUploadOutput` destructured by the code
(`bucket` and `upload_id`, both optional in the SDK response). -/
structure CreateMultipartUploadOutput where
  bucket : Option RStr
  upload_id : Option RStr
  deriving DecidableEq, Repr

/-- `CompletedPart`: built from `part_number` and the unwrapped `e_tag`. -/
structure CompletedPart where
  part_number : Nat
  e_tag : RStr
  deriving DecidableEq, Repr

/-- One result of `stdin.read_line(&mut buf)`:
 - `line s`: `Ok(n)` with `n > 0`, appending the nonempty chunk `s`
   (normally ending in a newline) to the buffer;
 - `eof`: `Ok(0)` (nothing read, stream closed);
 - `err`: `Err(_)`. -/
inductive ReadEvent where
  | line (s : RStr)
  | eof
  | err
  deriving DecidableEq, Repr

/-- The outward calls `handle_multipart` can make, in trace order. -/
inductive Call where
  | initiate (bucket key : RStr)
  | fromPath (path : RStr)
  | uploadPart (bucket key upload_id : RStr) (part_number : Nat) (body : RStr)
  | completeMultipart (bucket key upload_id : RStr) (parts : List CompletedPart)
  deriving DecidableEq, Repr

/-- How one run of `handle_multipart` terminates. -/
inductive Outcome where
  | completed
  | initiateFailed
  | panicked
  deriving DecidableEq, Repr

/-- The environment a run interacts with: the result of the initiate call,
the local filesystem (`ByteStream::from_path`), the result of each
`upload_part` send (indexed by the part number it is called with, which is
distinct across calls of one run), the result of the completion send, and
the stdin stream. -/
structure Env where
  initiate : Except RStr CreateMultipartUploadOutput
  fs : RStr → Option RStr
  upload : Nat → Except RStr (Option RStr)
  complete : Except RStr Unit
  input : List ReadEvent

/-- The observable result of a run: the calls made, how it ended, and the
input events never consumed. -/
structure RunResult where
  calls : List Call
  outcome : Outcome
  leftover : List ReadEvent
  deriving DecidableEq, Repr

/-- The completion branch of the loop (reached on `buf == "END"`, on
`Ok(0)`, and on a `read_line` error): the builder unwraps `upload_id`
first, then `bucket`, then sends `complete_multipart` and unwraps the
response. -/
def completeNow (env : Env) (key : RStr) (sbucket supload : Option RStr)
    (completed_parts : List CompletedPart) (calls : List Call)
    (rest : List ReadEvent) : RunResult :=
  match supload with
  | none => ⟨calls, .panicked, rest⟩
  | some uid =>
    match sbucket with
    | none => ⟨calls, .panicked, rest⟩
    | some b =>
      match env.complete with
      | .error _ => ⟨calls ++ [.completeMultipart b key uid completed_parts], .panicked, rest⟩
      | .ok _ => ⟨calls ++ [.completeMultipart b key uid completed_parts], .completed, rest⟩

/-- The `'outer: loop` of `handle_multipart`.  State: remaining input,
accumulated string buffer `buf` (never cleared by the code), the
`part_number` counter, the `completed_parts` vector, and the call trace so
far.  An exhausted input list behaves as `Ok(0)` reads. -/
def uploadLoop (env : Env) (key : RStr) (sbucket supload : Option RStr) :
    List ReadEvent → RStr → Nat → List CompletedPart → List Call → RunResult
  | [], _, _, completed_parts, calls =>
      completeNow env key sbucket supload completed_parts calls []
  | .err :: rest, _, _, completed_parts, calls =>
      completeNow env key sbucket supload completed_parts calls rest
  | .eof :: rest, _, _, completed_parts, calls =>
      completeNow env key sbucket supload completed_parts calls rest
  | .line s :: rest, buf, part_number, completed_parts, calls =>
      let buf := buf ++ s
      if buf = strEND then
        completeNow env key sbucket supload completed_parts calls rest
      else
        let buf := buf.dropLast
        match env.fs buf with
        | none => ⟨calls ++ [.fromPath buf], .panicked, rest⟩
        | some body =>
          let calls := calls ++ [.fromPath buf]
          let part_number := part_number + 1
          match sbucket with
          | none => ⟨calls, .panicked, rest⟩
          | some b =>
            match supload with
            | none => ⟨calls, .panicked, rest⟩
            | some uid =>
              match env.upload part_number with
              | .error _ =>
                  ⟨calls ++ [.uploadPart b key uid part_number body], .panicked, rest⟩
              | .ok none =>
                  ⟨calls ++ [.uploadPart b key uid part_number body], .panicked, rest⟩
              | .ok (some etag) =>
                  uploadLoop env key sbucket supload rest buf part_number
                    (completed_parts ++ [⟨part_number, etag⟩])
                    (calls ++ [.uploadPart b key uid part_number body])

/-- `handle_multipart(client, bucket, key)`: initiate, and on success run
the part-upload loop with the response's `bucket` and `upload_id`, an empty
buffer, `part_number = 0` and empty `completed_parts`. -/
def handle_multipart (env : Env) (bucket key : RStr) : RunResult :=
  match env.initiate with
  | .error _ => ⟨[.initiate bucket key], .initiateFailed, env.input⟩
  | .ok out =>
      uploadLoop env key out.bucket out.upload_id env.input [] 0 [] [.initiate bucket key]

/-- Is a call the completion call? -/
def isComplete : Call → Bool
  | .completeMultipart _ _ _ _ => true
  | _ => false

/-- Is a call a part upload? -/
def isUpload : Call → Bool
  | .uploadPart _ _ _ _ _ => true
  | _ => false

/-- Is a call a part upload whose send fails in environment `env`? -/
def isFailedUpload (env : Env) : Call → Bool
  | .uploadPart _ _ _ pn _ =>
      match env.upload pn with
      | .error _ => true
      | _ => false
  | _ => false

/-- The part numbers of the upload calls of a trace, in order. -/
def callPartNumbers (cs : List Call) : List Nat :=
  cs.filterMap fun c =>
    match c with
    | .uploadPart _ _ _ pn _ => some pn
    | _ => none

/-- The arguments of the `from_path` calls of a trace, in order. -/
def fromPathArgs (cs : List Call) : List RStr :=
  cs.filterMap fun c =>
    match c with
    | .fromPath p => some p
    | _ => none

/-- The bucket argument a call sends, when it sends one after initiation. -/
def bucketUsed : Call → Option RStr
  | .uploadPart b _ _ _ _ => some b
  | .completeMultipart b _ _ _ => some b
  | _ => none

/-! ### Equation lemmas for the loop -/

theorem completeNow_sunone (env : Env) (key : RStr) (sb : Option RStr)
    (parts : List CompletedPart) (calls : List Call) (rest : List ReadEvent) :
    completeNow env key sb none parts calls rest = ⟨calls, .panicked, rest⟩ := rfl

theorem completeNow_sbnone (env : Env) (key u : RStr)
    (parts : List CompletedPart) (calls : List Call) (rest : List ReadEvent) :
    completeNow env key none (some u) parts calls rest = ⟨calls, .panicked, rest⟩ := rfl

theorem completeNow_calls (env : Env) (key b u : RStr)
    (parts : List CompletedPart) (calls : List Call) (rest : List ReadEvent) :
    (completeNow env key (some b) (some u) parts calls rest).calls
      = calls ++ [.completeMultipart b key u parts] := by
  cases h : env.complete <;> simp [completeNow, h]

theorem completeNow_leftover (env : Env) (key : RStr) (sb su : Option RStr)
    (parts : List CompletedPart) (calls : List Call) (rest : List ReadEvent) :
    (completeNow env key sb su parts calls rest).leftover = rest := by
  cases su with
  | none => rfl
  | some u =>
    cases sb with
    | none => rfl
    | some b => cases h : env.complete <;> simp [completeNow, h]

theorem uploadLoop_nil (env : Env) (key : RStr) (sb su : Option RStr)
    (buf : RStr) (n : Nat) (parts : List CompletedPart) (calls : List Call) :
    uploadLoop env key sb su [] buf n parts calls
      = completeNow env key sb su parts calls [] := rfl

theorem uploadLoop_eof (env : Env) (key : RStr) (sb su : Option RStr)
    (rest : List ReadEvent) (buf : RStr) (n : Nat)
    (parts : List CompletedPart) (calls : List Call) :
    uploadLoop env key sb su (.eof :: rest) buf n parts calls
      = completeNow env key sb su parts calls rest := rfl

theorem uploadLoop_err (env : Env) (key : RStr) (sb su : Option RStr)
    (rest : List ReadEvent) (buf : RStr) (n : Nat)
    (parts : List CompletedPart) (calls : List Call) :
    uploadLoop env key sb su (.err :: rest) buf n parts calls
      = completeNow env key sb su parts calls rest := rfl

theorem uploadLoop_line_end (env : Env) (key : RStr) (sb su : Option RStr)
    (s : RStr) (rest : List ReadEvent) (buf : RStr) (n : Nat)
    (parts : List CompletedPart) (calls : List Call)
    (h : buf ++ s = strEND) :
    uploadLoop env key sb su (.line s :: rest) buf n parts calls
      = completeNow env key sb su parts calls rest := by
  simp only [uploadLoop]
  rw [if_pos h]

theorem uploadLoop_line_nofs (env : Env) (key : RStr) (sb su : Option RStr)
    (s : RStr) (rest : List ReadEvent) (buf : RStr) (n : Nat)
    (parts : List CompletedPart) (calls : List Call)
    (h1 : buf ++ s ≠ strEND) (h2 : env.fs (buf ++ s).dropLast = none) :
    uploadLoop env key sb su (.line s :: rest) buf n parts calls
      = ⟨calls ++ [.fromPath (buf ++ s).dropLast], .panicked, rest⟩ := by
  simp only [uploadLoop]
  rw [if_neg h1, h2]

theorem uploadLoop_line_sbnone (env : Env) (key : RStr) (su : Option RStr)
    (s : RStr) (rest : List ReadEvent) (buf : RStr) (n : Nat)
    (parts : List CompletedPart) (calls : List Call) (body : RStr)
    (h1 : buf ++ s ≠ strEND) (h2 : env.fs (buf ++ s).dropLast = some body) :
    uploadLoop env key none su (.line s :: rest) buf n parts calls
      = ⟨calls ++ [.fromPath (buf ++ s).dropLast], .panicked, rest⟩ := by
  simp only [uploadLoop]
  rw [if_neg h1, h2]

theorem uploadLoop_line_sunone (env : Env) (key b : RStr)
    (s : RStr) (rest : List ReadEvent) (buf : RStr) (n : Nat)
    (parts : List CompletedPart) (calls : List Call) (body : RStr)
    (h1 : buf ++ s ≠ strEND) (h2 : env.fs (buf ++ s).dropLast = some body) :
    uploadLoop env key (some b) none (.line s :: rest) buf n parts calls
      = ⟨calls ++ [.fromPath (buf ++ s).dropLast], .panicked, rest⟩ := by
  simp only [uploadLoop]
  rw [if_neg h1, h2]

theorem uploadLoop_line_uperr (env : Env) (key b u : RStr)
    (s : RStr) (rest : List ReadEvent) (buf : RStr) (n : Nat)
    (parts : List CompletedPart) (calls : List Call) (body e : RStr)
    (h1 : buf ++ s ≠ strEND) (h2 : env.fs (buf ++ s).dropLast = some body)
    (h3 : env.upload (n + 1) = .error e) :
    uploadLoop env key (some b) (some u) (.line s :: rest) buf n parts calls
      = ⟨calls ++ [.fromPath (buf ++ s).dropLast,
                   .uploadPart b key u (n + 1) body], .panicked, rest⟩ := by
  simp only [uploadLoop]
  rw [if_neg h1, h2, h3]
  simp

theorem uploadLoop_line_noetag (env : Env) (key b u : RStr)
    (s : RStr) (rest : List ReadEvent) (buf : RStr) (n : Nat)
    (parts : List CompletedPart) (calls : List Call) (body : RStr)
    (h1 : buf ++ s ≠ strEND) (h2 : env.fs (buf ++ s).dropLast = some body)
    (h3 : env.upload (n + 1) = .ok none) :
    uploadLoop env key (some b) (some u) (.line s :: rest) buf n parts calls
      = ⟨calls ++ [.fromPath (buf ++ s).dropLast,
                   .uploadPart b key u (n + 1) body], .panicked, rest⟩ := by
  simp only [uploadLoop]
  rw [if_neg h1, h2, h3]
  simp

theorem uploadLoop_line_ok (env : Env) (key b u : RStr)
    (s : RStr) (rest : List ReadEvent) (buf : RStr) (n : Nat)
    (parts : List CompletedPart) (calls : List Call) (body t : RStr)
    (h1 : buf ++ s ≠ strEND) (h2 : env.fs (buf ++ s).dropLast = some body)
    (h3 : env.upload (n + 1) = .ok (some t)) :
    uploadLoop env key (some b) (some u) (.line s :: rest) buf n parts calls
      = uploadLoop env key (some b) (some u) rest (buf ++ s).dropLast (n + 1)
          (parts ++ [⟨n + 1, t⟩])
          (calls ++ [.fromPath (buf ++ s).dropLast,
                     .uploadPart b key u (n + 1) body]) := by
  simp only [uploadLoop]
  rw [if_neg h1, h2, h3]
  simp

/-! ### Trace monotonicity -/

theorem completeNow_calls_mono (env : Env) (key : RStr) (sb su : Option RStr)
    (parts : List CompletedPart) (calls : List Call) (rest : List ReadEvent) :
    ∃ extra, (completeNow env key sb su parts calls rest).calls = calls ++ extra := by
  cases su with
  | none => exact ⟨[], by simp [completeNow]⟩
  | some u =>
    cases sb with
    | none => exact ⟨[], by simp [completeNow]⟩
    | some b =>
      exact ⟨[.completeMultipart b key u parts], completeNow_calls env key b u parts calls rest⟩

theorem uploadLoop_calls_mono : ∀ (input : List ReadEvent) (env : Env) (key : RStr)
    (sb su : Option RStr) (buf : RStr) (n : Nat)
    (parts : List CompletedPart) (calls : List Call),
    ∃ extra, (uploadLoop env key sb su input buf n parts calls).calls = calls ++ extra := by
  intro input
  induction input with
  | nil =>
    intro env key sb su buf n parts calls
    rw [uploadLoop_nil]
    exact completeNow_calls_mono env key sb su parts calls []
  | cons ev rest ih =>
    intro env key sb su buf n parts calls
    cases ev with
    | eof =>
      rw [uploadLoop_eof]
      exact completeNow_calls_mono env key sb su parts calls rest
    | err =>
      rw [uploadLoop_err]
      exact completeNow_calls_mono env key sb su parts calls rest
    | line s =>
      by_cases hE : buf ++ s = strEND
      · rw [uploadLoop_line_end env key sb su s rest buf n parts calls hE]
        exact completeNow_calls_mono env key sb su parts calls rest
      · cases hfs : env.fs (buf ++ s).dropLast with
        | none =>
          rw [uploadLoop_line_nofs env key sb su s rest buf n parts calls hE hfs]
          exact ⟨_, rfl⟩
        | some body =>
          cases sb with
          | none =>
            rw [uploadLoop_line_sbnone env key su s rest buf n parts calls body hE hfs]
            exact ⟨_, rfl⟩
          | some b =>
            cases su with
            | none =>
              rw [uploadLoop_line_sunone env key b s rest buf n parts calls body hE hfs]
              exact ⟨_, rfl⟩
            | some u =>
              cases hup : env.upload (n + 1) with
              | error e =>
                rw [uploadLoop_line_uperr env key b u s rest buf n parts calls body e hE hfs hup]
                exact ⟨_, rfl⟩
              | ok oet =>
                cases oet with
                | none =>
                  rw [uploadLoop_line_noetag env key b u s rest buf n parts calls body hE hfs hup]
                  exact ⟨_, rfl⟩
                | some t =>
                  rw [uploadLoop_line_ok env key b u s rest buf n parts calls body t hE hfs hup]
                  obtain ⟨e2, he2⟩ := ih env key (some b) (some u) (buf ++ s).dropLast (n + 1)
                    (parts ++ [⟨n + 1, t⟩])
                    (calls ++ [Call.fromPath (buf ++ s).dropLast,
                               Call.uploadPart b key u (n + 1) body])
                  rw [he2, List.append_assoc]
                  exact ⟨_, rfl⟩

/-! ### Claim theorems -/

/-- C4: if the input stream ends (a zero-byte read, or no events left at
all) without an explicit END line, the orchestrator proceeds exactly as on
the END sentinel: it invokes `complete_multipart` with the parts
accumulated so far. -/
theorem c4_eof_completes (env : Env) (key b u : RStr) (rest : List ReadEvent)
    (buf : RStr) (n : Nat) (parts : List CompletedPart) (calls : List Call) :
    (uploadLoop env key (some b) (some u) (.eof :: rest) buf n parts calls).calls
        = calls ++ [.completeMultipart b key u parts]
    ∧ (uploadLoop env key (some b) (some u) [] buf n parts calls).calls
        = calls ++ [.completeMultipart b key u parts] := by
  constructor
  · rw [uploadLoop_eof]
    exact completeNow_calls env key b u parts calls rest
  · rw [uploadLoop_nil]
    exact completeNow_calls env key b u parts calls []

/-- C5: when `initiate_multipart` fails, the run reports the failure and
terminates at once: the trace holds only the initiate call, so no
`upload_part` and no `complete_multipart` is ever invoked. -/
theorem c5_initiate_failure (env : Env) (b k e : RStr)
    (h : env.initiate = .error e) :
    (handle_multipart env b k).calls = [.initiate b k]
    ∧ (handle_multipart env b k).outcome = .initiateFailed
    ∧ ∀ c ∈ (handle_multipart env b k).calls,
        isUpload c = false ∧ isComplete c = false := by
  refine ⟨by simp [handle_multipart, h], by simp [handle_multipart, h], ?_⟩
  intro c hc
  simp [handle_multipart, h] at hc
  subst hc
  exact ⟨rfl, rfl⟩

/-- Concrete environment witnessing C5. -/
def envInitFail : Env where
  initiate := .error "boom".toList
  fs := fun _ => none
  upload := fun _ => .ok none
  complete := .ok ()
  input := []

theorem c5_initiate_failure_witness :
    envInitFail.initiate = .error "boom".toList
    ∧ ((handle_multipart envInitFail "b".toList "k".toList).calls
          = [.initiate "b".toList "k".toList]
       ∧ (handle_multipart envInitFail "b".toList "k".toList).outcome = .initiateFailed
       ∧ ∀ c ∈ (handle_multipart envInitFail "b".toList "k".toList).calls,
           isUpload c = false ∧ isComplete c = false) :=
  ⟨rfl, c5_initiate_failure envInitFail "b".toList "k".toList "boom".toList rfl⟩

/-! ### The sentinel/buffer bug: concrete runs -/

/-- A run whose operator enters one valid file path and then the line
`END` (both newline-terminated), with every remote call set to succeed:
the input the spec's N = 1 scenario describes. -/
def envC1 : Env where
  initiate := .ok ⟨some "bkt2".toList, some "uid".toList⟩
  fs := fun p => if p = "fileA.bin".toList then some "AAA".toList else none
  upload := fun _ => .ok (some "e1".toList)
  complete := .ok ()
  input := [.line "fileA.bin\n".toList, .line "END\n".toList]

/-- C1 fails on the code: after one valid path, the buffer is never
cleared, so the second iteration resolves the path `fileA.binEND` (the
concatenation), `ByteStream::from_path(..).unwrap()` panics, and the
completion call with parts 1..N is never made. -/
theorem c1_code_eval :
    (handle_multipart envC1 "bkt".toList "key".toList).outcome = .panicked
    ∧ (handle_multipart envC1 "bkt".toList "key".toList).calls
        = [.initiate "bkt".toList "key".toList,
           .fromPath "fileA.bin".toList,
           .uploadPart "bkt2".toList "key".toList "uid".toList 1 "AAA".toList,
           .fromPath "fileA.binEND".toList]
    ∧ ∀ c ∈ (handle_multipart envC1 "bkt".toList "key".toList).calls,
        isComplete c = false := by
  decide

/-- A run whose operator enters the sentinel line `END` (newline
terminated) as the first line, with every remote call set to succeed and
no file named `END` present. -/
def envC2 : Env where
  initiate := .ok ⟨some "bkt2".toList, some "uid".toList⟩
  fs := fun _ => none
  upload := fun _ => .ok (some "e1".toList)
  complete := .ok ()
  input := [.line "END\n".toList]

/-- C2 fails on the code: the comparison `buf == "END"` sees the buffer
including the trailing newline, so the typed sentinel never matches; the
line is treated as the file path `END` and the run panics instead of
stopping and completing. -/
theorem c2_code_eval :
    (handle_multipart envC2 "bkt".toList "key".toList).calls
        = [.initiate "bkt".toList "key".toList, .fromPath "END".toList]
    ∧ (handle_multipart envC2 "bkt".toList "key".toList).outcome = .panicked := by
  decide

/-- The spec scenario for C3: `END` is the very first input line. -/
def envC3 : Env where
  initiate := .ok ⟨some "bkt3".toList, some "uid3".toList⟩
  fs := fun _ => none
  upload := fun _ => .ok (some "e1".toList)
  complete := .ok ()
  input := [.line "END\n".toList]

/-- C3 fails on the code: with `END` as the first line,
`complete_multipart` is not invoked with an empty parts list (it is not
invoked at all); the run panics on `from_path("END")`. -/
theorem c3_code_eval :
    (∀ c ∈ (handle_multipart envC3 "bkt".toList "key".toList).calls,
        isComplete c = false)
    ∧ (handle_multipart envC3 "bkt".toList "key".toList).outcome = .panicked := by
  decide

/-! ### A failed part upload stops the run before any completion -/

theorem mem_completeNow_calls (env : Env) (key : RStr) (sb su : Option RStr)
    (parts : List CompletedPart) (calls : List Call) (rest : List ReadEvent) :
    ∀ c ∈ (completeNow env key sb su parts calls rest).calls,
      c ∈ calls ∨ ∃ b u, c = Call.completeMultipart b key u parts := by
  cases su with
  | none => intro c hc; exact Or.inl hc
  | some u =>
    cases sb with
    | none => intro c hc; exact Or.inl hc
    | some b =>
      intro c hc
      rw [completeNow_calls] at hc
      rcases List.mem_append.1 hc with h | h
      · exact Or.inl h
      · exact Or.inr ⟨b, u, by simpa using h⟩

theorem no_failed_in_completeNow (env : Env) (key : RStr) (sb su : Option RStr)
    (parts : List CompletedPart) (calls : List Call) (rest : List ReadEvent)
    (h2 : ∀ c ∈ calls, isFailedUpload env c = false) :
    ∀ c ∈ (completeNow env key sb su parts calls rest).calls,
      isFailedUpload env c = false := by
  intro c hc
  rcases mem_completeNow_calls env key sb su parts calls rest c hc with h | ⟨b, u, rfl⟩
  · exact h2 c h
  · rfl

theorem uploadLoop_failed_no_complete : ∀ (input : List ReadEvent) (env : Env)
    (key : RStr) (sb su : Option RStr) (buf : RStr) (n : Nat)
    (parts : List CompletedPart) (calls : List Call),
    (∀ c ∈ calls, isComplete c = false) →
    (∀ c ∈ calls, isFailedUpload env c = false) →
    (∃ c ∈ (uploadLoop env key sb su input buf n parts calls).calls,
        isFailedUpload env c = true) →
    ∀ c ∈ (uploadLoop env key sb su input buf n parts calls).calls,
      isComplete c = false := by
  intro input
  induction input with
  | nil =>
    intro env key sb su buf n parts calls _ h2 hex
    exfalso
    obtain ⟨c, hc, hfail⟩ := hex
    rw [uploadLoop_nil] at hc
    rw [no_failed_in_completeNow env key sb su parts calls [] h2 c hc] at hfail
    simp at hfail
  | cons ev rest ih =>
    intro env key sb su buf n parts calls h1 h2 hex
    cases ev with
    | eof =>
      exfalso
      obtain ⟨c, hc, hfail⟩ := hex
      rw [uploadLoop_eof] at hc
      rw [no_failed_in_completeNow env key sb su parts calls rest h2 c hc] at hfail
      simp at hfail
    | err =>
      exfalso
      obtain ⟨c, hc, hfail⟩ := hex
      rw [uploadLoop_err] at hc
      rw [no_failed_in_completeNow env key sb su parts calls rest h2 c hc] at hfail
      simp at hfail
    | line s =>
      by_cases hE : buf ++ s = strEND
      · exfalso
        obtain ⟨c, hc, hfail⟩ := hex
        rw [uploadLoop_line_end env key sb su s rest buf n parts calls hE] at hc
        rw [no_failed_in_completeNow env key sb su parts calls rest h2 c hc] at hfail
        simp at hfail
      · cases hfs : env.fs (buf ++ s).dropLast with
        | none =>
          exfalso
          obtain ⟨c, hc, hfail⟩ := hex
          rw [uploadLoop_line_nofs env key sb su s rest buf n parts calls hE hfs] at hc
          rcases List.mem_append.1 hc with h | h
          · rw [h2 c h] at hfail; simp at hfail
          · rw [List.mem_singleton.1 h] at hfail; simp [isFailedUpload] at hfail
        | some body =>
          cases sb with
          | none =>
            exfalso
            obtain ⟨c, hc, hfail⟩ := hex
            rw [uploadLoop_line_sbnone env key su s rest buf n parts calls body hE hfs] at hc
            rcases List.mem_append.1 hc with h | h
            · rw [h2 c h] at hfail; simp at hfail
            · rw [List.mem_singleton.1 h] at hfail; simp [isFailedUpload] at hfail
          | some b =>
            cases su with
            | none =>
              exfalso
              obtain ⟨c, hc, hfail⟩ := hex
              rw [uploadLoop_line_sunone env key b s rest buf n parts calls body hE hfs] at hc
              rcases List.mem_append.1 hc with h | h
              · rw [h2 c h] at hfail; simp at hfail
              · rw [List.mem_singleton.1 h] at hfail; simp [isFailedUpload] at hfail
            | some u =>
              cases hup : env.upload (n + 1) with
              | error e =>
                intro c hc
                rw [uploadLoop_line_uperr env key b u s rest buf n parts calls body e
                      hE hfs hup] at hc
                simp only [List.mem_append, List.mem_cons, List.mem_singleton,
                           List.not_mem_nil] at hc
                rcases hc with h | h | h
                · exact h1 c h
                · rw [h]; rfl
                · rcases h with h | h
                  · rw [h]; rfl
                  · exact h.elim
              | ok oet =>
                cases oet with
                | none =>
                  intro c hc
                  rw [uploadLoop_line_noetag env key b u s rest buf n parts calls body
                        hE hfs hup] at hc
                  simp only [List.mem_append, List.mem_cons, List.mem_singleton,
                             List.not_mem_nil] at hc
                  rcases hc with h | h | h
                  · exact h1 c h
                  · rw [h]; rfl
                  · rcases h with h | h
                    · rw [h]; rfl
                    · exact h.elim
                | some t =>
                  rw [uploadLoop_line_ok env key b u s rest buf n parts calls body t
                        hE hfs hup] at hex ⊢
                  refine ih env key (some b) (some u) (buf ++ s).dropLast (n + 1)
                    (parts ++ [⟨n + 1, t⟩])
                    (calls ++ [Call.fromPath (buf ++ s).dropLast,
                               Call.uploadPart b key u (n + 1) body]) ?_ ?_ hex
                  · intro c hc
                    rcases List.mem_append.1 hc with h | h
                    · exact h1 c h
                    · rcases List.mem_cons.1 h with h | h
                      · rw [h]; rfl
                      · rw [List.mem_singleton.1 h]; rfl
                  · intro c hc
                    rcases List.mem_append.1 hc with h | h
                    · exact h2 c h
                    · rcases List.mem_cons.1 h with h | h
                      · rw [h]; rfl
                      · rw [List.mem_singleton.1 h]; simp [isFailedUpload, hup]

/-- C6: when an `upload_part` send fails, the run stops at once: the
iteration records only the `from_path` and the failing `upload_part` call,
panics, consumes no further input (the leftover stream is exactly `rest`,
whatever it is), and in any run whose trace holds a failed upload call,
no `complete_multipart` call appears in the trace. -/
theorem c6_upload_failure :
    (∀ (env : Env) (key b u s : RStr) (rest : List ReadEvent) (buf : RStr)
        (n : Nat) (parts : List CompletedPart) (calls : List Call) (body e : RStr),
      buf ++ s ≠ strEND →
      env.fs (buf ++ s).dropLast = some body →
      env.upload (n + 1) = .error e →
      uploadLoop env key (some b) (some u) (.line s :: rest) buf n parts calls
        = ⟨calls ++ [.fromPath (buf ++ s).dropLast,
                     .uploadPart b key u (n + 1) body], .panicked, rest⟩)
    ∧ (∀ (env : Env) (b k : RStr),
      (∃ c ∈ (handle_multipart env b k).calls, isFailedUpload env c = true) →
      ∀ c ∈ (handle_multipart env b k).calls, isComplete c = false) := by
  constructor
  · intro env key b u s rest buf n parts calls body e h1 h2 h3
    exact uploadLoop_line_uperr env key b u s rest buf n parts calls body e h1 h2 h3
  · intro env b k hex
    cases hin : env.initiate with
    | error e =>
      exfalso
      obtain ⟨c, hc, hfail⟩ := hex
      simp only [handle_multipart, hin] at hc
      rw [List.mem_singleton.1 hc] at hfail
      simp [isFailedUpload] at hfail
    | ok out =>
      simp only [handle_multipart, hin] at hex ⊢
      refine uploadLoop_failed_no_complete env.input env k out.bucket out.upload_id
        [] 0 [] [.initiate b k] ?_ ?_ hex
      · intro c hc
        rw [List.mem_singleton.1 hc]; rfl
      · intro c hc
        rw [List.mem_singleton.1 hc]; rfl

/-- Concrete environment witnessing C6: the first (and only) part upload
is rejected by the service. -/
def envC6 : Env where
  initiate := .ok ⟨some "bk".toList, some "uid".toList⟩
  fs := fun p => if p = "f1".toList then some "B1".toList else none
  upload := fun _ => .error "denied".toList
  complete := .ok ()
  input := [.line "f1\n".toList, .line "f2\n".toList]

theorem c6_upload_failure_witness :
    (uploadLoop envC6 "key".toList (some "bk".toList) (some "uid".toList)
        [ReadEvent.line "f1\n".toList, ReadEvent.line "f2\n".toList] [] 0 []
        [Call.initiate "b".toList "key".toList]).outcome = .panicked
    ∧ ∀ c ∈ (handle_multipart envC6 "b".toList "key".toList).calls,
        isComplete c = false := by
  constructor
  · rw [c6_upload_failure.1 envC6 "key".toList "bk".toList "uid".toList "f1\n".toList
        [ReadEvent.line "f2\n".toList] [] 0 [] [Call.initiate "b".toList "key".toList]
        "B1".toList "denied".toList (by decide) (by decide) rfl]
  · exact c6_upload_failure.2 envC6 "b".toList "key".toList
      ⟨Call.uploadPart "bk".toList "key".toList "uid".toList 1 "B1".toList,
        by decide, by decide⟩

/-! ### The completion call is unique, last, and carries exactly the
uploaded descriptors -/

theorem no_complete_no_decomp (xs : List Call)
    (h : ∀ c ∈ xs, isComplete c = false)
    (pre : List Call) (bb kk uu : RStr) (ps : List CompletedPart)
    (post : List Call) :
    xs ≠ pre ++ Call.completeMultipart bb kk uu ps :: post := by
  intro he
  have hm : Call.completeMultipart bb kk uu ps ∈ xs := by
    rw [he]; exact List.mem_append.2 (Or.inr (List.mem_cons_self _ _))
  have := h _ hm
  simp [isComplete] at this

theorem append_complete_decomp : ∀ (xs : List Call),
    (∀ c ∈ xs, isComplete c = false) →
    ∀ (pre : List Call) (b k u bb kk uu : RStr) (qs ps : List CompletedPart)
      (post : List Call),
    xs ++ [Call.completeMultipart b k u qs]
        = pre ++ Call.completeMultipart bb kk uu ps :: post →
    pre = xs ∧ post = [] ∧ ps = qs := by
  intro xs
  induction xs with
  | nil =>
    intro _ pre b k u bb kk uu qs ps post he
    cases pre with
    | nil =>
      rw [List.nil_append, List.nil_append] at he
      injection he with h1 h2
      injection h1 with _ _ _ hq
      exact ⟨rfl, h2.symm, hq.symm⟩
    | cons p pre' =>
      rw [List.nil_append, List.cons_append] at he
      injection he with h1 h2
      exact (List.cons_ne_nil _ _ (List.append_eq_nil.mp h2.symm).2).elim
  | cons x xs' ih =>
    intro h pre b k u bb kk uu qs ps post he
    cases pre with
    | nil =>
      rw [List.cons_append, List.nil_append] at he
      injection he with h1 h2
      have hx := h x (List.mem_cons_self x xs')
      rw [h1] at hx
      simp [isComplete] at hx
    | cons p pre' =>
      rw [List.cons_append, List.cons_append] at he
      injection he with h1 h2
      obtain ⟨hp, hpost, hps⟩ :=
        ih (fun c hc => h c (List.mem_cons_of_mem x hc)) pre' b k u bb kk uu qs ps post h2
      refine ⟨?_, hpost, hps⟩
      rw [h1, hp]

theorem completeNow_decomp (env : Env) (key : RStr) (sb su : Option RStr)
    (parts : List CompletedPart) (calls : List Call) (rest : List ReadEvent)
    (h5 : ∀ c ∈ calls, isComplete c = false)
    (pre : List Call) (bb kk uu : RStr) (ps : List CompletedPart)
    (post : List Call)
    (he : (completeNow env key sb su parts calls rest).calls
        = pre ++ Call.completeMultipart bb kk uu ps :: post) :
    pre = calls ∧ post = [] ∧ ps = parts := by
  cases su with
  | none =>
    simp only [completeNow_sunone] at he
    exact absurd he (no_complete_no_decomp calls h5 pre bb kk uu ps post)
  | some u =>
    cases sb with
    | none =>
      simp only [completeNow_sbnone] at he
      exact absurd he (no_complete_no_decomp calls h5 pre bb kk uu ps post)
    | some b =>
      rw [completeNow_calls] at he
      exact append_complete_decomp calls h5 pre b key u bb kk uu parts ps post he

theorem uploadLoop_complete_decomp : ∀ (input : List ReadEvent) (env : Env)
    (key : RStr) (sb su : Option RStr) (buf : RStr) (n : Nat)
    (parts : List CompletedPart) (calls : List Call),
    n = parts.length →
    parts.map CompletedPart.part_number = List.range' 1 parts.length →
    (∀ p ∈ parts, env.upload p.part_number = .ok (some p.e_tag)) →
    callPartNumbers calls = parts.map CompletedPart.part_number →
    (∀ c ∈ calls, isComplete c = false) →
    ∀ (pre : List Call) (bb kk uu : RStr) (ps : List CompletedPart)
      (post : List Call),
      (uploadLoop env key sb su input buf n parts calls).calls
          = pre ++ Call.completeMultipart bb kk uu ps :: post →
      post = [] ∧ ps.map CompletedPart.part_number = List.range' 1 ps.length
      ∧ (∀ p ∈ ps, env.upload p.part_number = .ok (some p.e_tag))
      ∧ callPartNumbers pre = ps.map CompletedPart.part_number := by
  intro input
  induction input with
  | nil =>
    intro env key sb su buf n parts calls h1 h2 h3 h4 h5 pre bb kk uu ps post he
    rw [uploadLoop_nil] at he
    obtain ⟨hpre, hpost, hps⟩ :=
      completeNow_decomp env key sb su parts calls [] h5 pre bb kk uu ps post he
    subst hps hpre
    exact ⟨hpost, h2, h3, h4⟩
  | cons ev rest ih =>
    intro env key sb su buf n parts calls h1 h2 h3 h4 h5 pre bb kk uu ps post he
    cases ev with
    | eof =>
      rw [uploadLoop_eof] at he
      obtain ⟨hpre, hpost, hps⟩ :=
        completeNow_decomp env key sb su parts calls rest h5 pre bb kk uu ps post he
      subst hps hpre
      exact ⟨hpost, h2, h3, h4⟩
    | err =>
      rw [uploadLoop_err] at he
      obtain ⟨hpre, hpost, hps⟩ :=
        completeNow_decomp env key sb su parts calls rest h5 pre bb kk uu ps post he
      subst hps hpre
      exact ⟨hpost, h2, h3, h4⟩
    | line s =>
      by_cases hE : buf ++ s = strEND
      · rw [uploadLoop_line_end env key sb su s rest buf n parts calls hE] at he
        obtain ⟨hpre, hpost, hps⟩ :=
          completeNow_decomp env key sb su parts calls rest h5 pre bb kk uu ps post he
        subst hps hpre
        exact ⟨hpost, h2, h3, h4⟩
      · cases hfs : env.fs (buf ++ s).dropLast with
        | none =>
          rw [uploadLoop_line_nofs env key sb su s rest buf n parts calls hE hfs] at he
          have hnc : ∀ c ∈ calls ++ [Call.fromPath (buf ++ s).dropLast],
              isComplete c = false := by
            intro c hc
            rcases List.mem_append.1 hc with h | h
            · exact h5 c h
            · rw [List.mem_singleton.1 h]; rfl
          exact absurd he (no_complete_no_decomp _ hnc pre bb kk uu ps post)
        | some body =>
          cases sb with
          | none =>
            rw [uploadLoop_line_sbnone env key su s rest buf n parts calls body hE hfs] at he
            have hnc : ∀ c ∈ calls ++ [Call.fromPath (buf ++ s).dropLast],
                isComplete c = false := by
              intro c hc
              rcases List.mem_append.1 hc with h | h
              · exact h5 c h
              · rw [List.mem_singleton.1 h]; rfl
            exact absurd he (no_complete_no_decomp _ hnc pre bb kk uu ps post)
          | some b =>
            cases su with
            | none =>
              rw [uploadLoop_line_sunone env key b s rest buf n parts calls body hE hfs] at he
              have hnc : ∀ c ∈ calls ++ [Call.fromPath (buf ++ s).dropLast],
                  isComplete c = false := by
                intro c hc
                rcases List.mem_append.1 hc with h | h
                · exact h5 c h
                · rw [List.mem_singleton.1 h]; rfl
              exact absurd he (no_complete_no_decomp _ hnc pre bb kk uu ps post)
            | some u =>
              cases hup : env.upload (n + 1) with
              | error e =>
                rw [uploadLoop_line_uperr env key b u s rest buf n parts calls body e
                      hE hfs hup] at he
                have hnc : ∀ c ∈ calls ++ [Call.fromPath (buf ++ s).dropLast,
                    Call.uploadPart b key u (n + 1) body], isComplete c = false := by
                  intro c hc
                  rcases List.mem_append.1 hc with h | h
                  · exact h5 c h
                  · rcases List.mem_cons.1 h with h | h
                    · rw [h]; rfl
                    · rw [List.mem_singleton.1 h]; rfl
                exact absurd he (no_complete_no_decomp _ hnc pre bb kk uu ps post)
              | ok oet =>
                cases oet with
                | none =>
                  rw [uploadLoop_line_noetag env key b u s rest buf n parts calls body
                        hE hfs hup] at he
                  have hnc : ∀ c ∈ calls ++ [Call.fromPath (buf ++ s).dropLast,
                      Call.uploadPart b key u (n + 1) body], isComplete c = false := by
                    intro c hc
                    rcases List.mem_append.1 hc with h | h
                    · exact h5 c h
                    · rcases List.mem_cons.1 h with h | h
                      · rw [h]; rfl
                      · rw [List.mem_singleton.1 h]; rfl
                  exact absurd he (no_complete_no_decomp _ hnc pre bb kk uu ps post)
                | some t =>
                  rw [uploadLoop_line_ok env key b u s rest buf n parts calls body t
                        hE hfs hup] at he
                  refine ih env key (some b) (some u) (buf ++ s).dropLast (n + 1)
                    (parts ++ [⟨n + 1, t⟩])
                    (calls ++ [Call.fromPath (buf ++ s).dropLast,
                               Call.uploadPart b key u (n + 1) body])
                    ?_ ?_ ?_ ?_ ?_ pre bb kk uu ps post he
                  · rw [List.length_append, List.length_singleton, h1]
                  · rw [List.map_append, List.length_append, List.length_singleton,
                        List.map_singleton, h2, List.range'_concat, h1]
                    simp [Nat.add_comm]
                  · intro p hp
                    rcases List.mem_append.1 hp with h | h
                    · exact h3 p h
                    · rw [List.mem_singleton.1 h]
                      exact hup
                  · show callPartNumbers (calls ++ [Call.fromPath (buf ++ s).dropLast,
                        Call.uploadPart b key u (n + 1) body])
                      = (parts ++ [CompletedPart.mk (n + 1) t]).map CompletedPart.part_number
                    rw [callPartNumbers, List.filterMap_append, List.map_append]
                    rw [← callPartNumbers, h4, List.map_singleton]
                    rfl
                  · intro c hc
                    rcases List.mem_append.1 hc with h | h
                    · exact h5 c h
                    · rcases List.mem_cons.1 h with h | h
                      · rw [h]; rfl
                      · rw [List.mem_singleton.1 h]; rfl

/-- C7: in every run, any `complete_multipart` call in the trace is the
last call (so completion happens at most once per run), its parts carry
`part_number` 1..N in increasing order with the etag each numbered
`upload_part` send returned, and the upload calls preceding it are
numbered exactly 1..N as well. -/
theorem c7_completion_exact (env : Env) (b k : RStr)
    (pre : List Call) (bb kk uu : RStr) (ps : List CompletedPart)
    (post : List Call)
    (he : (handle_multipart env b k).calls
        = pre ++ Call.completeMultipart bb kk uu ps :: post) :
    post = [] ∧ ps.map CompletedPart.part_number = List.range' 1 ps.length
    ∧ (∀ p ∈ ps, env.upload p.part_number = .ok (some p.e_tag))
    ∧ callPartNumbers pre = ps.map CompletedPart.part_number := by
  cases hin : env.initiate with
  | error e =>
    simp only [handle_multipart, hin] at he
    refine absurd he (no_complete_no_decomp [Call.initiate b k] ?_ pre bb kk uu ps post)
    intro c hc
    rw [List.mem_singleton.1 hc]; rfl
  | ok out =>
    simp only [handle_multipart, hin] at he
    refine uploadLoop_complete_decomp env.input env k out.bucket out.upload_id
      [] 0 [] [.initiate b k] rfl rfl ?_ rfl ?_ pre bb kk uu ps post he
    · intro p hp
      exact absurd hp (List.not_mem_nil p)
    · intro c hc
      rw [List.mem_singleton.1 hc]; rfl

/-- Concrete environment witnessing C7: one part uploaded, then the
stream closes, so the run completes. -/
def envC7 : Env where
  initiate := .ok ⟨some "bw".toList, some "uw".toList⟩
  fs := fun p => if p = "f1".toList then some "B1".toList else none
  upload := fun _ => .ok (some "et1".toList)
  complete := .ok ()
  input := [.line "f1\n".toList]

theorem c7_completion_exact_witness :
    ((handle_multipart envC7 "b".toList "key".toList).calls
        = [Call.initiate "b".toList "key".toList, Call.fromPath "f1".toList,
           Call.uploadPart "bw".toList "key".toList "uw".toList 1 "B1".toList]
          ++ Call.completeMultipart "bw".toList "key".toList "uw".toList
              [CompletedPart.mk 1 "et1".toList] :: [])
    ∧ (([] : List Call) = []
       ∧ ([CompletedPart.mk 1 "et1".toList]).map CompletedPart.part_number
           = List.range' 1 ([CompletedPart.mk 1 "et1".toList]).length
       ∧ (∀ p ∈ [CompletedPart.mk 1 "et1".toList],
            envC7.upload p.part_number = .ok (some p.e_tag))
       ∧ callPartNumbers
            [Call.initiate "b".toList "key".toList, Call.fromPath "f1".toList,
             Call.uploadPart "bw".toList "key".toList "uw".toList 1 "B1".toList]
           = ([CompletedPart.mk 1 "et1".toList]).map CompletedPart.part_number) :=
  ⟨by decide,
   c7_completion_exact envC7 "b".toList "key".toList
     [Call.initiate "b".toList "key".toList, Call.fromPath "f1".toList,
      Call.uploadPart "bw".toList "key".toList "uw".toList 1 "B1".toList]
     "bw".toList "key".toList "uw".toList [CompletedPart.mk 1 "et1".toList] []
     (by decide)⟩

/-! ### Every post-initiation call uses the service-confirmed bucket -/

theorem completeNow_bucket (env : Env) (key bb : RStr) (su : Option RStr)
    (parts : List CompletedPart) (calls : List Call) (rest : List ReadEvent)
    (h : ∀ c ∈ calls, bucketUsed c = none ∨ bucketUsed c = some bb) :
    ∀ c ∈ (completeNow env key (some bb) su parts calls rest).calls,
      bucketUsed c = none ∨ bucketUsed c = some bb := by
  cases su with
  | none => intro c hc; exact h c hc
  | some u =>
    intro c hc
    rw [completeNow_calls] at hc
    rcases List.mem_append.1 hc with hh | hh
    · exact h c hh
    · rw [List.mem_singleton.1 hh]
      exact Or.inr rfl

theorem uploadLoop_bucket : ∀ (input : List ReadEvent) (env : Env) (key bb : RStr)
    (su : Option RStr) (buf : RStr) (n : Nat) (parts : List CompletedPart)
    (calls : List Call),
    (∀ c ∈ calls, bucketUsed c = none ∨ bucketUsed c = some bb) →
    ∀ c ∈ (uploadLoop env key (some bb) su input buf n parts calls).calls,
      bucketUsed c = none ∨ bucketUsed c = some bb := by
  intro input
  induction input with
  | nil =>
    intro env key bb su buf n parts calls h
    rw [uploadLoop_nil]
    exact completeNow_bucket env key bb su parts calls [] h
  | cons ev rest ih =>
    intro env key bb su buf n parts calls h
    cases ev with
    | eof =>
      rw [uploadLoop_eof]
      exact completeNow_bucket env key bb su parts calls rest h
    | err =>
      rw [uploadLoop_err]
      exact completeNow_bucket env key bb su parts calls rest h
    | line s =>
      by_cases hE : buf ++ s = strEND
      · rw [uploadLoop_line_end env key (some bb) su s rest buf n parts calls hE]
        exact completeNow_bucket env key bb su parts calls rest h
      · cases hfs : env.fs (buf ++ s).dropLast with
        | none =>
          rw [uploadLoop_line_nofs env key (some bb) su s rest buf n parts calls hE hfs]
          intro c hc
          rcases List.mem_append.1 hc with hh | hh
          · exact h c hh
          · rw [List.mem_singleton.1 hh]
            exact Or.inl rfl
        | some body =>
          cases su with
          | none =>
            rw [uploadLoop_line_sunone env key bb s rest buf n parts calls body hE hfs]
            intro c hc
            rcases List.mem_append.1 hc with hh | hh
            · exact h c hh
            · rw [List.mem_singleton.1 hh]
              exact Or.inl rfl
          | some u =>
            cases hup : env.upload (n + 1) with
            | error e =>
              rw [uploadLoop_line_uperr env key bb u s rest buf n parts calls body e hE hfs hup]
              intro c hc
              rcases List.mem_append.1 hc with hh | hh
              · exact h c hh
              · rcases List.mem_cons.1 hh with hh | hh
                · rw [hh]; exact Or.inl rfl
                · rw [List.mem_singleton.1 hh]; exact Or.inr rfl
            | ok oet =>
              cases oet with
              | none =>
                rw [uploadLoop_line_noetag env key bb u s rest buf n parts calls body hE hfs hup]
                intro c hc
                rcases List.mem_append.1 hc with hh | hh
                · exact h c hh
                · rcases List.mem_cons.1 hh with hh | hh
                  · rw [hh]; exact Or.inl rfl
                  · rw [List.mem_singleton.1 hh]; exact Or.inr rfl
              | some t =>
                rw [uploadLoop_line_ok env key bb u s rest buf n parts calls body t hE hfs hup]
                refine ih env key bb (some u) (buf ++ s).dropLast (n + 1)
                  (parts ++ [⟨n + 1, t⟩])
                  (calls ++ [Call.fromPath (buf ++ s).dropLast,
                             Call.uploadPart bb key u (n + 1) body]) ?_
                intro c hc
                rcases List.mem_append.1 hc with hh | hh
                · exact h c hh
                · rcases List.mem_cons.1 hh with hh | hh
                  · rw [hh]; exact Or.inl rfl
                  · rw [List.mem_singleton.1 hh]; exact Or.inr rfl

/-- C8: after a successful initiation whose response confirms bucket `bb`,
every `upload_part` and `complete_multipart` call of the run sends bucket
`bb` — the operator-supplied `bucket` argument (`b`, arbitrary here) is
used only for the initiate call itself. -/
theorem c8_service_bucket (env : Env) (b k : RStr)
    (out : CreateMultipartUploadOutput) (bb : RStr)
    (h1 : env.initiate = .ok out) (h2 : out.bucket = some bb) :
    ∀ c ∈ (handle_multipart env b k).calls,
      bucketUsed c = none ∨ bucketUsed c = some bb := by
  simp only [handle_multipart, h1, h2]
  refine uploadLoop_bucket env.input env k bb out.upload_id [] 0 []
    [.initiate b k] ?_
  intro c hc
  rw [List.mem_singleton.1 hc]
  exact Or.inl rfl

/-- Concrete environment witnessing C8: the operator passes bucket `op`
but the service confirms bucket `svc`. -/
def envC8 : Env where
  initiate := .ok ⟨some "svc".toList, some "u8".toList⟩
  fs := fun p => if p = "g1".toList then some "GB".toList else none
  upload := fun _ => .ok (some "tag8".toList)
  complete := .ok ()
  input := [.line "g1\n".toList]

theorem c8_service_bucket_witness :
    envC8.initiate = .ok ⟨some "svc".toList, some "u8".toList⟩
    ∧ (⟨some "svc".toList, some "u8".toList⟩ : CreateMultipartUploadOutput).bucket
        = some "svc".toList
    ∧ ∀ c ∈ (handle_multipart envC8 "op".toList "key".toList).calls,
        bucketUsed c = none ∨ bucketUsed c = some "svc".toList :=
  ⟨rfl, rfl,
   c8_service_bucket envC8 "op".toList "key".toList
     ⟨some "svc".toList, some "u8".toList⟩ "svc".toList rfl rfl⟩

/-- C10: every `.unwrap()` of an absent optional field or failed local
read panics the orchestrator without reaching `complete_multipart`:
(1) a missing `upload_id` at completion, (2) a missing confirmed bucket at
completion, (3) a non-sentinel line whose path `from_path` cannot read,
(4) a missing confirmed bucket at a part upload, (5) a missing `upload_id`
at a part upload, and (6) a successful `upload_part` response without an
`e_tag`.  In each case the run ends `panicked`, the completion call is
never added to the trace, and no further input is consumed. -/
theorem c10_panics :
    (∀ (env : Env) (key : RStr) (sb : Option RStr) (rest : List ReadEvent)
        (buf : RStr) (n : Nat) (parts : List CompletedPart) (calls : List Call),
      uploadLoop env key sb none (.eof :: rest) buf n parts calls
        = ⟨calls, .panicked, rest⟩)
    ∧ (∀ (env : Env) (key u : RStr) (rest : List ReadEvent) (buf : RStr)
        (n : Nat) (parts : List CompletedPart) (calls : List Call),
      uploadLoop env key none (some u) (.eof :: rest) buf n parts calls
        = ⟨calls, .panicked, rest⟩)
    ∧ (∀ (env : Env) (key : RStr) (sb su : Option RStr) (s : RStr)
        (rest : List ReadEvent) (buf : RStr) (n : Nat)
        (parts : List CompletedPart) (calls : List Call),
      buf ++ s ≠ strEND → env.fs (buf ++ s).dropLast = none →
      uploadLoop env key sb su (.line s :: rest) buf n parts calls
        = ⟨calls ++ [.fromPath (buf ++ s).dropLast], .panicked, rest⟩)
    ∧ (∀ (env : Env) (key : RStr) (su : Option RStr) (s : RStr)
        (rest : List ReadEvent) (buf : RStr) (n : Nat)
        (parts : List CompletedPart) (calls : List Call) (body : RStr),
      buf ++ s ≠ strEND → env.fs (buf ++ s).dropLast = some body →
      uploadLoop env key none su (.line s :: rest) buf n parts calls
        = ⟨calls ++ [.fromPath (buf ++ s).dropLast], .panicked, rest⟩)
    ∧ (∀ (env : Env) (key b : RStr) (s : RStr) (rest : List ReadEvent)
        (buf : RStr) (n : Nat) (parts : List CompletedPart) (calls : List Call)
        (body : RStr),
      buf ++ s ≠ strEND → env.fs (buf ++ s).dropLast = some body →
      uploadLoop env key (some b) none (.line s :: rest) buf n parts calls
        = ⟨calls ++ [.fromPath (buf ++ s).dropLast], .panicked, rest⟩)
    ∧ (∀ (env : Env) (key b u : RStr) (s : RStr) (rest : List ReadEvent)
        (buf : RStr) (n : Nat) (parts : List CompletedPart) (calls : List Call)
        (body : RStr),
      buf ++ s ≠ strEND → env.fs (buf ++ s).dropLast = some body →
      env.upload (n + 1) = .ok none →
      uploadLoop env key (some b) (some u) (.line s :: rest) buf n parts calls
        = ⟨calls ++ [.fromPath (buf ++ s).dropLast,
                     .uploadPart b key u (n + 1) body], .panicked, rest⟩) := by
  refine ⟨?_, ?_, ?_, ?_, ?_, ?_⟩
  · intro env key sb rest buf n parts calls
    rw [uploadLoop_eof, completeNow_sunone]
  · intro env key u rest buf n parts calls
    rw [uploadLoop_eof, completeNow_sbnone]
  · intro env key sb su s rest buf n parts calls h1 h2
    exact uploadLoop_line_nofs env key sb su s rest buf n parts calls h1 h2
  · intro env key su s rest buf n parts calls body h1 h2
    exact uploadLoop_line_sbnone env key su s rest buf n parts calls body h1 h2
  · intro env key b s rest buf n parts calls body h1 h2
    exact uploadLoop_line_sunone env key b s rest buf n parts calls body h1 h2
  · intro env key b u s rest buf n parts calls body h1 h2 h3
    exact uploadLoop_line_noetag env key b u s rest buf n parts calls body h1 h2 h3

/-- Environment for the C10 witness: empty filesystem. -/
def envC10a : Env := ⟨.ok ⟨none, none⟩, fun _ => none, fun _ => .ok none, .ok (), []⟩

/-- Environment for the C10 witness: every path readable, but every
`upload_part` response lacks an etag. -/
def envC10b : Env :=
  ⟨.ok ⟨none, none⟩, fun _ => some "BB".toList, fun _ => .ok none, .ok (), []⟩

theorem c10_panics_witness :
    (uploadLoop envC10a "k".toList (some "b".toList) none [.eof] [] 0 [] []
        = ⟨[], .panicked, []⟩)
    ∧ (uploadLoop envC10a "k".toList none (some "u".toList) [.eof] [] 0 [] []
        = ⟨[], .panicked, []⟩)
    ∧ (uploadLoop envC10a "k".toList (some "b".toList) (some "u".toList)
          [.line "x\n".toList] [] 0 [] []
        = ⟨[.fromPath "x".toList], .panicked, []⟩)
    ∧ (uploadLoop envC10b "k".toList none (some "u".toList)
          [.line "x\n".toList] [] 0 [] []
        = ⟨[.fromPath "x".toList], .panicked, []⟩)
    ∧ (uploadLoop envC10b "k".toList (some "b".toList) none
          [.line "x\n".toList] [] 0 [] []
        = ⟨[.fromPath "x".toList], .panicked, []⟩)
    ∧ (uploadLoop envC10b "k".toList (some "b".toList) (some "u".toList)
          [.line "x\n".toList] [] 0 [] []
        = ⟨[.fromPath "x".toList,
            .uploadPart "b".toList "k".toList "u".toList 1 "BB".toList],
           .panicked, []⟩) := by
  refine ⟨?_, ?_, ?_, ?_, ?_, ?_⟩
  · exact c10_panics.1 envC10a "k".toList (some "b".toList) [] [] 0 [] []
  · exact c10_panics.2.1 envC10a "k".toList "u".toList [] [] 0 [] []
  · rw [c10_panics.2.2.1 envC10a "k".toList (some "b".toList) (some "u".toList)
        "x\n".toList [] [] 0 [] [] (by decide) rfl]
    decide
  · rw [c10_panics.2.2.2.1 envC10b "k".toList (some "u".toList)
        "x\n".toList [] [] 0 [] [] "BB".toList (by decide) rfl]
    decide
  · rw [c10_panics.2.2.2.2.1 envC10b "k".toList "b".toList
        "x\n".toList [] [] 0 [] [] "BB".toList (by decide) rfl]
    decide
  · rw [c10_panics.2.2.2.2.2 envC10b "k".toList "b".toList "u".toList
        "x\n".toList [] [] 0 [] [] "BB".toList (by decide) rfl rfl]
    decide

/-! ### The accumulating buffer: the path of part k concatenates all
popped lines entered so far -/

/-- Does the `upload_part` send for part `k` succeed with an etag? -/
def uploadOK (env : Env) (k : Nat) : Bool :=
  match env.upload k with
  | .ok (some _) => true
  | _ => false

theorem uploadOK_iff (env : Env) (k : Nat) :
    uploadOK env k = true ↔ ∃ t, env.upload k = .ok (some t) := by
  unfold uploadOK
  cases h : env.upload k with
  | error e => simp
  | ok o => cases o <;> simp

/-- The etag the environment returns for part `k` (when it returns one). -/
def etagAt (env : Env) (k : Nat) : RStr :=
  match env.upload k with
  | .ok (some t) => t
  | _ => []

theorem etagAt_eq (env : Env) (k : Nat) (t : RStr)
    (h : env.upload k = .ok (some t)) : etagAt env k = t := by
  unfold etagAt
  rw [h]

/-- The body the filesystem returns for path `p` (when it has one). -/
def bodyAt (env : Env) (p : RStr) : RStr := (env.fs p).getD []

theorem bodyAt_eq (env : Env) (p body : RStr)
    (h : env.fs p = some body) : bodyAt env p = body := by
  unfold bodyAt
  rw [h]
  rfl

/-- `linesOK env buf n ls`: starting from buffer `buf` after `n` uploaded
parts, each line of `ls` is nonempty, never makes the accumulated buffer
equal `"END"`, resolves (after the pop) to a readable path, and its part
upload succeeds with an etag. -/
def linesOK (env : Env) : RStr → Nat → List RStr → Bool
  | _, _, [] => true
  | buf, n, l :: ls =>
      decide (l ≠ []) && decide (buf ++ l ≠ strEND)
        && (env.fs (buf ++ l).dropLast).isSome
        && uploadOK env (n + 1)
        && linesOK env (buf ++ l).dropLast (n + 1) ls

/-- The part descriptors the loop accumulates over a run of good lines. -/
def genParts (env : Env) : Nat → List RStr → List CompletedPart
  | _, [] => []
  | n, _ :: ls => CompletedPart.mk (n + 1) (etagAt env (n + 1)) :: genParts env (n + 1) ls

/-- The calls the loop makes over a run of good lines. -/
def genCalls (env : Env) (key bb uu : RStr) : RStr → Nat → List RStr → List Call
  | _, _, [] => []
  | buf, n, l :: ls =>
      Call.fromPath (buf ++ l).dropLast
        :: Call.uploadPart bb key uu (n + 1) (bodyAt env (buf ++ l).dropLast)
        :: genCalls env key bb uu (buf ++ l).dropLast (n + 1) ls

theorem genParts_cons (env : Env) (n : Nat) (l : RStr) (ls : List RStr) :
    genParts env n (l :: ls)
      = CompletedPart.mk (n + 1) (etagAt env (n + 1)) :: genParts env (n + 1) ls := rfl

theorem genCalls_cons (env : Env) (key bb uu buf : RStr) (n : Nat)
    (l : RStr) (ls : List RStr) :
    genCalls env key bb uu buf n (l :: ls)
      = Call.fromPath (buf ++ l).dropLast
          :: Call.uploadPart bb key uu (n + 1) (bodyAt env (buf ++ l).dropLast)
          :: genCalls env key bb uu (buf ++ l).dropLast (n + 1) ls := rfl

theorem fromPathArgs_append (xs ys : List Call) :
    fromPathArgs (xs ++ ys) = fromPathArgs xs ++ fromPathArgs ys :=
  List.filterMap_append xs ys _

theorem linesOK_ne_nil : ∀ (ls : List RStr) (env : Env) (buf : RStr) (n : Nat),
    linesOK env buf n ls = true → ∀ x ∈ ls, x ≠ [] := by
  intro ls
  induction ls with
  | nil => intro env buf n _ x hx; exact absurd hx (List.not_mem_nil x)
  | cons l ls ih =>
    intro env buf n h x hx
    simp only [linesOK, Bool.and_eq_true, decide_eq_true_eq] at h
    obtain ⟨⟨⟨⟨hne, _⟩, _⟩, _⟩, hrest⟩ := h
    rcases List.mem_cons.1 hx with hx | hx
    · rw [hx]; exact hne
    · exact ih env (buf ++ l).dropLast (n + 1) hrest x hx

theorem uploadLoop_processes_lines : ∀ (ls : List RStr) (env : Env)
    (key bb uu : RStr) (rest : List ReadEvent) (buf : RStr) (n : Nat)
    (parts : List CompletedPart) (calls : List Call),
    linesOK env buf n ls = true →
    uploadLoop env key (some bb) (some uu) (ls.map ReadEvent.line ++ rest)
        buf n parts calls
      = uploadLoop env key (some bb) (some uu) rest
          (buf ++ (ls.map List.dropLast).flatten) (n + ls.length)
          (parts ++ genParts env n ls)
          (calls ++ genCalls env key bb uu buf n ls) := by
  intro ls
  induction ls with
  | nil =>
    intro env key bb uu rest buf n parts calls _
    simp [genParts, genCalls]
  | cons l ls ih =>
    intro env key bb uu rest buf n parts calls h
    simp only [linesOK, Bool.and_eq_true, decide_eq_true_eq] at h
    obtain ⟨⟨⟨⟨hne, hEnd⟩, hsome⟩, hupb⟩, hrest⟩ := h
    obtain ⟨body, hfs⟩ := Option.isSome_iff_exists.mp hsome
    obtain ⟨t, hup⟩ := (uploadOK_iff env (n + 1)).mp hupb
    rw [List.map_cons, List.cons_append]
    rw [uploadLoop_line_ok env key bb uu l (ls.map ReadEvent.line ++ rest)
          buf n parts calls body t hEnd hfs hup]
    rw [ih env key bb uu rest (buf ++ l).dropLast (n + 1)
          (parts ++ [CompletedPart.mk (n + 1) t])
          (calls ++ [Call.fromPath (buf ++ l).dropLast,
                     Call.uploadPart bb key uu (n + 1) body]) hrest]
    have e1 : (buf ++ l).dropLast ++ (ls.map List.dropLast).flatten
        = buf ++ ((l :: ls).map List.dropLast).flatten := by
      rw [List.map_cons, List.flatten_cons, List.dropLast_append_of_ne_nil buf hne,
          List.append_assoc]
    have e2 : n + 1 + ls.length = n + (l :: ls).length := by
      rw [List.length_cons]; omega
    have e3 : (parts ++ [CompletedPart.mk (n + 1) t]) ++ genParts env (n + 1) ls
        = parts ++ genParts env n (l :: ls) := by
      rw [genParts_cons, etagAt_eq env (n + 1) t hup, List.append_assoc,
          List.singleton_append]
    have e4 : (calls ++ [Call.fromPath (buf ++ l).dropLast,
          Call.uploadPart bb key uu (n + 1) body]) ++ genCalls env key bb uu
            (buf ++ l).dropLast (n + 1) ls
        = calls ++ genCalls env key bb uu buf n (l :: ls) := by
      rw [genCalls_cons, bodyAt_eq env (buf ++ l).dropLast body hfs,
          List.append_assoc, List.cons_append, List.cons_append, List.nil_append]
    rw [e1, e2, e3, e4]

theorem fromPathArgs_genCalls : ∀ (ls : List RStr) (env : Env)
    (key bb uu buf : RStr) (n : Nat),
    (∀ x ∈ ls, x ≠ []) →
    fromPathArgs (genCalls env key bb uu buf n ls)
      = (List.range ls.length).map
          (fun j => buf ++ (((ls.take (j + 1)).map List.dropLast)).flatten) := by
  intro ls
  induction ls with
  | nil => intro env key bb uu buf n _; rfl
  | cons l ls ih =>
    intro env key bb uu buf n hne
    rw [genCalls_cons]
    rw [show fromPathArgs (Call.fromPath (buf ++ l).dropLast
          :: Call.uploadPart bb key uu (n + 1) (bodyAt env (buf ++ l).dropLast)
          :: genCalls env key bb uu (buf ++ l).dropLast (n + 1) ls)
        = (buf ++ l).dropLast
            :: fromPathArgs (genCalls env key bb uu (buf ++ l).dropLast (n + 1) ls)
        from rfl]
    rw [ih env key bb uu (buf ++ l).dropLast (n + 1)
          (fun x hx => hne x (List.mem_cons_of_mem l hx))]
    rw [List.dropLast_append_of_ne_nil buf (hne l (List.mem_cons_self l ls))]
    rw [List.length_cons, List.range_succ_eq_map, List.map_cons, List.map_map]
    congr 1
    · simp
    · apply List.map_congr_left
      intro j _
      simp only [Function.comp, List.take_succ_cons, List.map_cons,
                 List.flatten_cons, List.append_assoc]

/-- C9: the line buffer is never cleared and only the last character of
each read is popped, so (first conjunct) over any run of good lines the
k-th `from_path` call receives the concatenation of the first k entered
lines, each with its final character removed; and (second conjunct) at
every loop iteration the END test compares `"END"` against the whole
accumulated buffer with the newly read line appended — trailing newline
included — taking the completion branch exactly when that concatenation
equals `"END"`, and otherwise resolving that concatenation minus its last
character as the next path. -/
theorem c9_buffer_accumulation :
    (∀ (env : Env) (b k : RStr) (out : CreateMultipartUploadOutput)
        (bb uu : RStr) (ls : List RStr) (rest : List ReadEvent),
      env.initiate = .ok out → out.bucket = some bb → out.upload_id = some uu →
      env.input = ls.map ReadEvent.line ++ rest →
      linesOK env [] 0 ls = true →
      (fromPathArgs (handle_multipart env b k).calls).take ls.length
        = (List.range ls.length).map
            (fun j => (((ls.take (j + 1)).map List.dropLast)).flatten))
    ∧ (∀ (env : Env) (key bb uu s : RStr) (rest : List ReadEvent) (buf : RStr)
        (n : Nat) (parts : List CompletedPart) (calls : List Call),
      (((uploadLoop env key (some bb) (some uu) (.line s :: rest)
            buf n parts calls).calls).drop calls.length).head?
        = if buf ++ s = strEND
          then some (.completeMultipart bb key uu parts)
          else some (.fromPath (buf ++ s).dropLast)) := by
  constructor
  · intro env b k out bb uu ls rest h1 h2 h3 h4 h5
    simp only [handle_multipart, h1, h2, h3, h4]
    rw [uploadLoop_processes_lines ls env k bb uu rest [] 0 [] [Call.initiate b k] h5]
    obtain ⟨extra, hextra⟩ := uploadLoop_calls_mono rest env k (some bb) (some uu)
      ([] ++ (ls.map List.dropLast).flatten) (0 + ls.length)
      ([] ++ genParts env 0 ls) ([Call.initiate b k] ++ genCalls env k bb uu [] 0 ls)
    rw [hextra, List.append_assoc, fromPathArgs_append,
        show fromPathArgs [Call.initiate b k] = [] from rfl, List.nil_append,
        fromPathArgs_append]
    have hg := fromPathArgs_genCalls ls env k bb uu [] 0 (linesOK_ne_nil ls env [] 0 h5)
    have hlen : (fromPathArgs (genCalls env k bb uu [] 0 ls)).length = ls.length := by
      rw [hg, List.length_map, List.length_range]
    rw [← hlen, List.take_left, hg]
    simp only [List.nil_append, List.length_map, List.length_range]
  · intro env key bb uu s rest buf n parts calls
    by_cases hE : buf ++ s = strEND
    · rw [if_pos hE,
          uploadLoop_line_end env key (some bb) (some uu) s rest buf n parts calls hE,
          completeNow_calls, List.drop_left]
      rfl
    · rw [if_neg hE]
      cases hfs : env.fs (buf ++ s).dropLast with
      | none =>
        rw [uploadLoop_line_nofs env key (some bb) (some uu) s rest buf n parts calls hE hfs]
        simp
      | some body =>
        cases hup : env.upload (n + 1) with
        | error e =>
          rw [uploadLoop_line_uperr env key bb uu s rest buf n parts calls body e hE hfs hup]
          simp
        | ok oet =>
          cases oet with
          | none =>
            rw [uploadLoop_line_noetag env key bb uu s rest buf n parts calls body hE hfs hup]
            simp
          | some t =>
            rw [uploadLoop_line_ok env key bb uu s rest buf n parts calls body t hE hfs hup]
            obtain ⟨extra, hextra⟩ := uploadLoop_calls_mono rest env key (some bb) (some uu)
              (buf ++ s).dropLast (n + 1) (parts ++ [⟨n + 1, t⟩])
              (calls ++ [Call.fromPath (buf ++ s).dropLast,
                         Call.uploadPart bb key uu (n + 1) body])
            rw [hextra, List.append_assoc, List.drop_left]
            simp

/-- Concrete environment witnessing C9: two lines `a` and `b`; the
filesystem holds `a` (part 1's path) and `ab` (part 2's accumulated
path). -/
def envC9 : Env where
  initiate := .ok ⟨some "b9".toList, some "u9".toList⟩
  fs := fun p =>
    if p = "a".toList then some "A".toList
    else if p = "ab".toList then some "AB".toList else none
  upload := fun _ => .ok (some "t9".toList)
  complete := .ok ()
  input := [.line "a\n".toList, .line "b\n".toList]

theorem c9_buffer_accumulation_witness :
    (linesOK envC9 [] 0 ["a\n".toList, "b\n".toList] = true)
    ∧ ((fromPathArgs (handle_multipart envC9 "x".toList "k".toList).calls).take
          (["a\n".toList, "b\n".toList] : List RStr).length
        = (List.range (["a\n".toList, "b\n".toList] : List RStr).length).map
            (fun j => ((((["a\n".toList, "b\n".toList] : List RStr).take (j + 1)).map
                List.dropLast)).flatten))
    ∧ (((uploadLoop envC9 "k".toList (some "b9".toList) (some "u9".toList)
            [.line "END\n".toList] "a".toList 1 [] []).calls.drop
          ([] : List Call).length).head?
        = if ("a".toList ++ "END\n".toList : RStr) = strEND
          then some (.completeMultipart "b9".toList "k".toList "u9".toList [])
          else some (.fromPath ("a".toList ++ "END\n".toList).dropLast)) := by
  refine ⟨by decide, ?_, ?_⟩
  · exact c9_buffer_accumulation.1 envC9 "x".toList "k".toList
      ⟨some "b9".toList, some "u9".toList⟩ "b9".toList "u9".toList
      ["a\n".toList, "b\n".toList] [] rfl rfl rfl rfl (by decide)
  · exact c9_buffer_accumulation.2 envC9 "k".toList "b9".toList "u9".toList
      "END\n".toList [] "a".toList 1 [] []
